import Mathlib

/-!
Verification of the Mython interpreter (lexer, runtime value model and
tree-walking evaluator) against its natural-language specification.

The definitions below are a shallow embedding of the C++ sources:
  * `src/include/runtime.h`, `src/src/runtime.cpp` — value model, classes,
    instances, truthiness, comparisons;
  * `src/include/statement.h`, `src/src/statement.cpp` — the AST node set and
    the evaluator (`Execute` methods);
  * `src/include/lexer.h`, `src/src/lexer.cpp` — the lexer.

Modelling conventions:
  * `ObjectHolder` is `Option Obj` — the empty handle is `none`.  The
    owning/non-owning flavour of a handle is a memory-management detail with no
    behavioural content for immutable values; mutable `ClassInstance` objects
    are modelled by heap indices (`Obj.inst`), so aliasing through shared
    handles is preserved.
  * C++ exceptions are modelled by an explicit result type `RRes`:
    `.ret` is a thrown `runtime::ObjectHolder` (the non-local return transfer),
    `.err` is a thrown `runtime_error`/`LexerError` message.
  * `Closure` (`std::unordered_map<std::string, ObjectHolder>`) is an
    association list with overwrite-on-insert; only lookup and insert are used
    by the sources.
  * C++ `int` is modelled as `Int` restricted at the lexer boundary
    (`std::stoi` raises `std::out_of_range` beyond `2147483647`); evaluator
    arithmetic is modelled on unbounded `Int` (signed overflow is UB in C++).
  * General recursion through stored method bodies is modelled with fuel,
    consumed exactly at `ClassInstance::Call` and at the recursive print of a
    `__str__` result; all other recursion is structural on the AST.
-/

namespace Mython

/-- A runtime object (`runtime::Object` subclasses): `Bool`, `Number`
(`ValueObject<int>`), `String`, `Class` (index into the program's class table)
and `ClassInstance` (index into the instance heap). -/
inductive Obj where
  | bool : Bool → Obj
  | num : Int → Obj
  | str : String → Obj
  | cls : Nat → Obj
  | inst : Nat → Obj
deriving DecidableEq, Repr

/-- `runtime::ObjectHolder`: a possibly-empty handle to an object. -/
abbrev Handle := Option Obj

/-- `runtime::IsTrue`: `Bool` by value, `Number` nonzero, `String` nonempty,
anything else (including the empty handle, classes and instances) false. -/
def isTrue : Handle → Bool
  | some (Obj.bool b) => b
  | some (Obj.num n) => !(n == 0)
  | some (Obj.str s) => !s.isEmpty
  | _ => false

/-- `runtime::Closure`: a name-to-handle table.  Modelled as an association
list; `cloSet` overwrites an existing binding in place. -/
abbrev Closure := List (String × Handle)

/-- Lookup (`closure.count` / `closure.at`). -/
def cloFind : Closure → String → Option Handle
  | [], _ => none
  | (k, v) :: rest, key => if k == key then some v else cloFind rest key

/-- Insert-or-overwrite (`closure[key] = v`). -/
def cloSet : Closure → String → Handle → Closure
  | [], key, v => [(key, v)]
  | (k, w) :: rest, key, v =>
      if k == key then (k, v) :: rest else (k, w) :: cloSet rest key v

/-- A statement-kind tag for the six comparison predicates passed to
`ast::Comparison` (`runtime::Equal`, `NotEqual`, `Less`, `Greater`,
`LessOrEqual`, `GreaterOrEqual`). -/
inductive CmpOp where
  | eq | ne | lt | gt | le | ge
deriving DecidableEq, Repr

/-- The AST (`ast::Statement` subclasses from `statement.h`).
`fieldAssign` carries the head name and dotted tail of its `VariableValue`
member; `newInstance` carries the heap index of the `ClassInstance` owned by
the node; `classDef` carries the index of the `runtime::Class` its
`ObjectHolder` member is guaranteed to hold. -/
inductive Stmt where
  | numConst (n : Int)
  | strConst (s : String)
  | boolConst (b : Bool)
  | noneConst
  | variableValue (name : String) (tail : List String)
  | assign (var : String) (rv : Stmt)
  | fieldAssign (objName : String) (objTail : List String) (field : String) (rv : Stmt)
  | print (args : List Stmt)
  | methodCall (object : Stmt) (method : String) (args : List Stmt)
  | newInstance (iid : Nat) (args : List Stmt)
  | stringify (arg : Stmt)
  | add (l r : Stmt)
  | sub (l r : Stmt)
  | mult (l r : Stmt)
  | div (l r : Stmt)
  | orS (l r : Stmt)
  | andS (l r : Stmt)
  | notS (a : Stmt)
  | compound (args : List Stmt)
  | methodBody (body : Stmt)
  | ret (stm : Stmt)
  | classDef (cid : Nat)
  | ifElse (cond : Stmt) (ifBody : Stmt) (elseBody : Option Stmt)
  | comparison (op : CmpOp) (l r : Stmt)

/-- `runtime::Method`: name, formal parameter names, body. -/
structure MethodC where
  name : String
  formalParams : List String
  body : Stmt

/-- `runtime::Class`: name, method list, optional parent (index into the
program's class table; the C++ parent pointer always refers to a class built
earlier). -/
structure ClassC where
  name : String
  methods : List MethodC
  parent : Option Nat

/-- `runtime::ClassInstance`: its class and its attribute table (`closure_`). -/
structure Inst where
  cls : Nat
  fields : Closure
deriving DecidableEq, Inhabited

/-- The mutable world threaded through execution: the instance heap (instances
are created up front, only their `fields` mutate) and the text written so far
to the context's output stream. -/
structure State where
  heap : List Inst
  output : String
deriving DecidableEq

/-- `runtime::Class::GetMethod`: linear scan of the class's own methods, then
the parent chain.  The auxiliary fuel only bounds the parent chain (which is
finite in any C++ program, since a parent must exist before its subclass). -/
def getMethodAux (classes : List ClassC) : Nat → Nat → String → Option MethodC
  | 0, _, _ => none
  | fuel + 1, cid, mname =>
    match classes[cid]? with
    | none => none
    | some c =>
      match c.methods.find? (fun m => m.name == mname) with
      | some m => some m
      | none =>
        match c.parent with
        | some p => getMethodAux classes fuel p mname
        | none => none

/-- `runtime::Class::GetMethod` at a class index. -/
def getMethod (classes : List ClassC) (cid : Nat) (mname : String) : Option MethodC :=
  getMethodAux classes (classes.length + 1) cid mname

/-- `runtime::ClassInstance::HasMethod`: the method found by `GetMethod` (the
nearest definition in the inheritance chain) must have exactly
`argumentCount` formal parameters. -/
def hasMethod (classes : List ClassC) (cid : Nat) (mname : String)
    (argumentCount : Nat) : Bool :=
  match getMethod classes cid mname with
  | some mtd => mtd.formalParams.length == argumentCount
  | none => false

/-- `runtime::Class::GetName` at a class index. -/
def className (classes : List ClassC) (cid : Nat) : String :=
  match classes[cid]? with
  | some c => c.name
  | none => ""

/-- The formal-to-actual binding loop of `runtime::ClassInstance::Call`
(`args[param] = actual_args.at(index++)`). -/
def bindParams : Closure → List String → List Handle → Closure
  | c, [], _ => c
  | c, _, [] => c
  | c, p :: ps, a :: rest => bindParams (cloSet c p a) ps rest

/-- The anonymous-namespace `Comp` template of `runtime.cpp`: both `Bool`,
both `Number`, or both `String` compare with the predicate; any other pair
throws "Cannot compare objects". -/
def comp (pb : Bool → Bool → Bool) (pn : Int → Int → Bool)
    (ps : String → String → Bool) (lhs rhs : Handle) : Except String Bool :=
  match lhs, rhs with
  | some (Obj.bool a), some (Obj.bool b) => Except.ok (pb a b)
  | some (Obj.num a), some (Obj.num b) => Except.ok (pn a b)
  | some (Obj.str a), some (Obj.str b) => Except.ok (ps a b)
  | _, _ => Except.error "Cannot compare objects"

/-- `ast::VariableValue::Execute`: look the head name up in the closure
(missing → "Variable ... not found"); a nonempty dotted tail requires a
`ClassInstance` value (otherwise "Variable ... is not class") and recurses
into the instance's attribute table. -/
def varLookup (st : State) : Closure → String → List String → Except String Handle
  | c, name, tail =>
    match cloFind c name with
    | none => Except.error ("Variable " ++ name ++ " not found")
    | some h =>
      match tail with
      | [] => Except.ok h
      | t :: ts =>
        match h with
        | some (Obj.inst iid) =>
          match st.heap[iid]? with
          | some i => varLookup st i.fields t ts
          | none => Except.error ("Variable " ++ name ++ " is not class")
        | _ => Except.error ("Variable " ++ name ++ " is not class")

/-- Result of an evaluation step that threads the caller's closure
(`Closure&` is passed by reference in C++, so mutations made before a throw
survive the throw): normal completion, a thrown `ObjectHolder` (the `return`
transfer), or a thrown `runtime_error`. -/
inductive CERes (α : Type) where
  | ok : α → Closure → State → CERes α
  | ret : Handle → Closure → State → CERes α
  | err : String → Closure → State → CERes α
deriving DecidableEq

/-- Result of an operation that does not thread the caller's closure
(`ClassInstance::Call`, printing, the comparison predicates). -/
inductive RRes (α : Type) where
  | ok : α → State → RRes α
  | ret : Handle → State → RRes α
  | err : String → State → RRes α
deriving DecidableEq

/-- The opaque identity `ClassInstance::Print` writes (`os << this`, the
instance's address) when the class has no zero-argument `__str__`: modelled
as a deterministic rendering of the heap index. -/
def instAddr (iid : Nat) : String := "<Instance " ++ toString iid ++ ">"

mutual

/-- The evaluator: `ast::<Node>::Execute(closure, context)` for every node
kind of `statement.cpp`, as one function over the `Stmt` AST.  Fuel is
consumed only when a stored method body is entered (`callMethod`) and when a
`__str__` result is printed recursively; all other recursion is structural. -/
def exec (classes : List ClassC) (fuel : Nat) (s : Stmt) (c : Closure)
    (st : State) : CERes Handle :=
  match s with
  | .numConst n => .ok (some (.num n)) c st
  | .strConst v => .ok (some (.str v)) c st
  | .boolConst b => .ok (some (.bool b)) c st
  | .noneConst => .ok none c st
  | .variableValue name tail =>
    match varLookup st c name tail with
    | .ok h => .ok h c st
    | .error e => .err e c st
  | .assign var rv =>
    match exec classes fuel rv c st with
    | .ok h c1 st1 => .ok h (cloSet c1 var h) st1
    | .ret h c1 st1 => .ret h c1 st1
    | .err e c1 st1 => .err e c1 st1
  | .fieldAssign objName objTail field rv =>
    match varLookup st c objName objTail with
    | .error e => .err e c st
    | .ok h =>
      match h with
      | some (.inst iid) =>
        match exec classes fuel rv c st with
        | .ok v c1 st1 =>
          match st1.heap[iid]? with
          | some i =>
            .ok v c1 { st1 with
              heap := st1.heap.set iid { i with fields := cloSet i.fields field v } }
          | none => .err "Object is not class!" c1 st1
        | .ret h1 c1 st1 => .ret h1 c1 st1
        | .err e c1 st1 => .err e c1 st1
      | _ => .err "Object is not class!" c st
  | .print args => execPrintArgs classes fuel args true c st
  | .methodCall object mname args =>
    match exec classes fuel object c st with
    | .ok h c1 st1 =>
      match h with
      | some (.inst iid) =>
        match execArgs classes fuel args c1 st1 with
        | .ok vals c2 st2 =>
          match callMethod classes fuel iid mname vals st2 with
          | .ok hr st3 => .ok hr c2 st3
          | .ret hr st3 => .ret hr c2 st3
          | .err e st3 => .err e c2 st3
        | .ret hr c2 st2 => .ret hr c2 st2
        | .err e c2 st2 => .err e c2 st2
      | _ => .err "Object is not class instance" c1 st1
    | .ret h c1 st1 => .ret h c1 st1
    | .err e c1 st1 => .err e c1 st1
  | .newInstance iid args =>
    match st.heap[iid]? with
    | some i =>
      match hasMethod classes i.cls "__init__" args.length with
      | true =>
        match execArgs classes fuel args c st with
        | .ok vals c1 st1 =>
          match callMethod classes fuel iid "__init__" vals st1 with
          | .ok _ st2 => .ok (some (.inst iid)) c1 st2
          | .ret hr st2 => .ret hr c1 st2
          | .err e st2 => .err e c1 st2
        | .ret hr c1 st1 => .ret hr c1 st1
        | .err e c1 st1 => .err e c1 st1
      | false => .ok (some (.inst iid)) c st
    | none => .err "invalid instance" c st
  | .stringify arg =>
    match exec classes fuel arg c st with
    | .ok h c1 st1 =>
      match h with
      | none => .ok (some (.str "None")) c1 st1
      | some o =>
        match objPrint classes fuel (some o) st1 with
        | .ok t st2 => .ok (some (.str t)) c1 st2
        | .ret hr st2 => .ret hr c1 st2
        | .err e st2 => .err e c1 st2
    | .ret h c1 st1 => .ret h c1 st1
    | .err e c1 st1 => .err e c1 st1
  | .add l r =>
    match exec classes fuel l c st with
    | .ok lh c1 st1 =>
      match exec classes fuel r c1 st1 with
      | .ok rh c2 st2 =>
        match lh, rh with
        | some (.num a), some (.num b) => .ok (some (.num (a + b))) c2 st2
        | some (.str a), some (.str b) => .ok (some (.str (a ++ b))) c2 st2
        | some (.inst iid), _ =>
          match callMethod classes fuel iid "__add__" [rh] st2 with
          | .ok hr st3 => .ok hr c2 st3
          | .ret hr st3 => .ret hr c2 st3
          | .err e st3 => .err e c2 st3
        | _, _ =>
          .err "Can add only numbers, strings and class instances with __add__" c2 st2
      | .ret h c2 st2 => .ret h c2 st2
      | .err e c2 st2 => .err e c2 st2
    | .ret h c1 st1 => .ret h c1 st1
    | .err e c1 st1 => .err e c1 st1
  | .sub l r =>
    match exec classes fuel l c st with
    | .ok lh c1 st1 =>
      match exec classes fuel r c1 st1 with
      | .ok rh c2 st2 =>
        match lh, rh with
        | some (.num a), some (.num b) => .ok (some (.num (a - b))) c2 st2
        | _, _ => .err "Can subtract only numbers" c2 st2
      | .ret h c2 st2 => .ret h c2 st2
      | .err e c2 st2 => .err e c2 st2
    | .ret h c1 st1 => .ret h c1 st1
    | .err e c1 st1 => .err e c1 st1
  | .mult l r =>
    match exec classes fuel l c st with
    | .ok lh c1 st1 =>
      match exec classes fuel r c1 st1 with
      | .ok rh c2 st2 =>
        match lh, rh with
        | some (.num a), some (.num b) => .ok (some (.num (a * b))) c2 st2
        | _, _ => .err "Can multiply only numbers" c2 st2
      | .ret h c2 st2 => .ret h c2 st2
      | .err e c2 st2 => .err e c2 st2
    | .ret h c1 st1 => .ret h c1 st1
    | .err e c1 st1 => .err e c1 st1
  | .div l r =>
    match exec classes fuel l c st with
    | .ok lh c1 st1 =>
      match exec classes fuel r c1 st1 with
      | .ok rh c2 st2 =>
        if (match rh with | some (.num b) => b == 0 | _ => false) then
          .err "Division by zero" c2 st2
        else
          match lh, rh with
          | some (.num a), some (.num b) => .ok (some (.num (Int.tdiv a b))) c2 st2
          | _, _ => .err "Can divide only numbers" c2 st2
      | .ret h c2 st2 => .ret h c2 st2
      | .err e c2 st2 => .err e c2 st2
    | .ret h c1 st1 => .ret h c1 st1
    | .err e c1 st1 => .err e c1 st1
  | .orS l r =>
    match exec classes fuel l c st with
    | .ok lh c1 st1 =>
      match isTrue lh with
      | true => .ok (some (.bool true)) c1 st1
      | false =>
        match exec classes fuel r c1 st1 with
        | .ok rh c2 st2 => .ok (some (.bool (isTrue rh))) c2 st2
        | .ret h c2 st2 => .ret h c2 st2
        | .err e c2 st2 => .err e c2 st2
    | .ret h c1 st1 => .ret h c1 st1
    | .err e c1 st1 => .err e c1 st1
  | .andS l r =>
    match exec classes fuel l c st with
    | .ok lh c1 st1 =>
      match isTrue lh with
      | true =>
        match exec classes fuel r c1 st1 with
        | .ok rh c2 st2 => .ok (some (.bool (isTrue rh))) c2 st2
        | .ret h c2 st2 => .ret h c2 st2
        | .err e c2 st2 => .err e c2 st2
      | false => .ok (some (.bool false)) c1 st1
    | .ret h c1 st1 => .ret h c1 st1
    | .err e c1 st1 => .err e c1 st1
  | .notS a =>
    match exec classes fuel a c st with
    | .ok h c1 st1 => .ok (some (.bool (!isTrue h))) c1 st1
    | .ret h c1 st1 => .ret h c1 st1
    | .err e c1 st1 => .err e c1 st1
  | .compound args =>
    match execArgs classes fuel args c st with
    | .ok _ c1 st1 => .ok none c1 st1
    | .ret h c1 st1 => .ret h c1 st1
    | .err e c1 st1 => .err e c1 st1
  | .methodBody body =>
    match exec classes fuel body c st with
    | .ok _ c1 st1 => .ok none c1 st1
    | .ret h c1 st1 => .ok h c1 st1
    | .err e c1 st1 => .err e c1 st1
  | .ret stm =>
    match exec classes fuel stm c st with
    | .ok h c1 st1 => .ret h c1 st1
    | .ret h c1 st1 => .ret h c1 st1
    | .err e c1 st1 => .err e c1 st1
  | .classDef cid =>
    .ok none (cloSet c (className classes cid) (some (.cls cid))) st
  | .ifElse cond tb (some eb) =>
    match exec classes fuel cond c st with
    | .ok h c1 st1 =>
      match isTrue h with
      | true =>
        match exec classes fuel tb c1 st1 with
        | .ok h2 c2 st2 => .ok h2 c2 st2
        | .ret h2 c2 st2 => .ret h2 c2 st2
        | .err e2 c2 st2 => .err e2 c2 st2
      | false =>
        match exec classes fuel eb c1 st1 with
        | .ok h2 c2 st2 => .ok h2 c2 st2
        | .ret h2 c2 st2 => .ret h2 c2 st2
        | .err e2 c2 st2 => .err e2 c2 st2
    | .ret h c1 st1 => .ret h c1 st1
    | .err e c1 st1 => .err e c1 st1
  | .ifElse cond tb none =>
    match exec classes fuel cond c st with
    | .ok h c1 st1 =>
      match isTrue h with
      | true =>
        match exec classes fuel tb c1 st1 with
        | .ok h2 c2 st2 => .ok h2 c2 st2
        | .ret h2 c2 st2 => .ret h2 c2 st2
        | .err e2 c2 st2 => .err e2 c2 st2
      | false => .ok none c1 st1
    | .ret h c1 st1 => .ret h c1 st1
    | .err e c1 st1 => .err e c1 st1
  | .comparison op l r =>
    match exec classes fuel l c st with
    | .ok lh c1 st1 =>
      match exec classes fuel r c1 st1 with
      | .ok rh c2 st2 =>
        match cmpApply classes fuel op lh rh st2 with
        | .ok b st3 => .ok (some (.bool b)) c2 st3
        | .ret h st3 => .ret h c2 st3
        | .err e st3 => .err e c2 st3
      | .ret h c2 st2 => .ret h c2 st2
      | .err e c2 st2 => .err e c2 st2
    | .ret h c1 st1 => .ret h c1 st1
    | .err e c1 st1 => .err e c1 st1
termination_by (fuel, sizeOf s, 1)

/-- Left-to-right evaluation of a statement list collecting the result
handles: the argument loops of `MethodCall::Execute` and
`NewInstance::Execute`, and (results discarded) `Compound::Execute`. -/
def execArgs (classes : List ClassC) (fuel : Nat) (args : List Stmt)
    (c : Closure) (st : State) : CERes (List Handle) :=
  match args with
  | [] => .ok [] c st
  | a :: rest =>
    match exec classes fuel a c st with
    | .ok h c1 st1 =>
      match execArgs classes fuel rest c1 st1 with
      | .ok hs c2 st2 => .ok (h :: hs) c2 st2
      | .ret hr c2 st2 => .ret hr c2 st2
      | .err e c2 st2 => .err e c2 st2
    | .ret hr c1 st1 => .ret hr c1 st1
    | .err e c1 st1 => .err e c1 st1
termination_by (fuel, sizeOf args, 0)

/-- The loop of `Print::Execute`: a single space before every argument but the
first, each value printed by the §4.2 rule (`obj->Print`), the empty handle
printed as the literal `None`, and a terminating newline. -/
def execPrintArgs (classes : List ClassC) (fuel : Nat) (args : List Stmt)
    (first : Bool) (c : Closure) (st : State) : CERes Handle :=
  match args with
  | [] => .ok none c { st with output := st.output ++ "\n" }
  | a :: rest =>
    let st0 := if first then st else { st with output := st.output ++ " " }
    match exec classes fuel a c st0 with
    | .ok h c1 st1 =>
      match h with
      | none =>
        execPrintArgs classes fuel rest false c1
          { st1 with output := st1.output ++ "None" }
      | some o =>
        match objPrint classes fuel (some o) st1 with
        | .ok t st2 =>
          execPrintArgs classes fuel rest false c1
            { st2 with output := st2.output ++ t }
        | .ret hr st2 => .ret hr c1 st2
        | .err e st2 => .err e c1 st2
    | .ret hr c1 st1 => .ret hr c1 st1
    | .err e c1 st1 => .err e c1 st1
termination_by (fuel, sizeOf args, 0)

/-- `runtime::ClassInstance::Call`: arity-checked lookup (throwing
"No method …" on failure), a fresh closure binding `self` and the formals,
then execution of the stored method body.  The callee's closure is discarded;
its effects on the heap and the output survive. -/
def callMethod (classes : List ClassC) (fuel : Nat) (iid : Nat) (mname : String)
    (actualArgs : List Handle) (st : State) : RRes Handle :=
  match fuel with
  | 0 => .err "out of fuel" st
  | f + 1 =>
    match st.heap[iid]? with
    | none => .err "invalid instance" st
    | some i =>
      match hasMethod classes i.cls mname actualArgs.length with
      | true =>
        match getMethod classes i.cls mname with
        | some mtd =>
          match exec classes f mtd.body
              (bindParams [("self", some (.inst iid))] mtd.formalParams actualArgs) st with
          | .ok h _ st1 => .ok h st1
          | .ret h _ st1 => .ret h st1
          | .err e _ st1 => .err e st1
        | none => .err "invalid method" st
      | false =>
        .err ("No method " ++ mname ++ " in class " ++ className classes i.cls
          ++ " with " ++ toString actualArgs.length ++ " arguments.") st
termination_by (fuel, 0, 0)

/-- `Object::Print(os, context)` for a handle, returning the text written to
`os`: `Bool` as `True`/`False`, `Number` and `String` by value, `Class` as
`Class <name>`; a `ClassInstance` with a zero-argument `__str__` calls it
(side effects on the context stream happen before the returned text is
written) and prints its result, otherwise the instance's opaque address. -/
def objPrint (classes : List ClassC) (fuel : Nat) (h : Handle) (st : State) :
    RRes String :=
  match h with
  | some (.bool b) => .ok (if b then "True" else "False") st
  | some (.num n) => .ok (toString n) st
  | some (.str s) => .ok s st
  | some (.cls cid) => .ok ("Class " ++ className classes cid) st
  | some (.inst iid) =>
    match st.heap[iid]? with
    | none => .err "invalid instance" st
    | some i =>
      match hasMethod classes i.cls "__str__" 0 with
      | true =>
        match fuel with
        | 0 => .err "out of fuel" st
        | f + 1 =>
          match callMethod classes (f + 1) iid "__str__" [] st with
          | .ok hr st1 =>
            match hr with
            | none => .err "Dereferencing empty ObjectHolder" st1
            | some o => objPrint classes f (some o) st1
          | .ret hr st1 => .ret hr st1
          | .err e st1 => .err e st1
      | false => .ok (instAddr iid) st
  | none => .err "Dereferencing empty ObjectHolder" st
termination_by (fuel, 0, 1)

/-- `runtime::Equal`: primitive comparison via `Comp` with `std::equal_to`;
on "Cannot compare objects", an `Instance` left operand dispatches to
`__eq__` (truthiness-coerced), two empty handles are equal, anything else
rethrows. -/
def equalF (classes : List ClassC) (fuel : Nat) (l r : Handle) (st : State) :
    RRes Bool :=
  match comp (fun a b => a == b) (fun a b => a == b) (fun a b => a == b) l r with
  | .ok b => .ok b st
  | .error msg =>
    match l with
    | some (.inst iid) =>
      match callMethod classes fuel iid "__eq__" [r] st with
      | .ok h st1 => .ok (isTrue h) st1
      | .ret h st1 => .ret h st1
      | .err e st1 => .err e st1
    | _ =>
      match l, r with
      | none, none => .ok true st
      | _, _ => .err msg st
termination_by (fuel, 0, 2)

/-- `runtime::Less`: primitive comparison via `Comp` with `std::less`
(`false < true` on `Bool`, lexicographic on strings); on failure an
`Instance` left operand dispatches to `__lt__`, anything else rethrows. -/
def lessF (classes : List ClassC) (fuel : Nat) (l r : Handle) (st : State) :
    RRes Bool :=
  match comp (fun a b => !a && b) (fun a b => decide (a < b))
      (fun a b => decide (a < b)) l r with
  | .ok b => .ok b st
  | .error msg =>
    match l with
    | some (.inst iid) =>
      match callMethod classes fuel iid "__lt__" [r] st with
      | .ok h st1 => .ok (isTrue h) st1
      | .ret h st1 => .ret h st1
      | .err e st1 => .err e st1
    | _ => .err msg st
termination_by (fuel, 0, 2)

/-- The six comparison predicates as passed to `ast::Comparison`:
`NotEqual = !Equal`, `Greater = !(Less || Equal)` (short-circuiting),
`LessOrEqual = !Greater`, `GreaterOrEqual = !Less`, exactly as composed in
`runtime.cpp`. -/
def cmpApply (classes : List ClassC) (fuel : Nat) (op : CmpOp) (l r : Handle)
    (st : State) : RRes Bool :=
  match op with
  | .eq => equalF classes fuel l r st
  | .ne =>
    match equalF classes fuel l r st with
    | .ok b st1 => .ok (!b) st1
    | .ret h st1 => .ret h st1
    | .err e st1 => .err e st1
  | .lt => lessF classes fuel l r st
  | .gt =>
    match lessF classes fuel l r st with
    | .ok true st1 => .ok false st1
    | .ok false st1 =>
      match equalF classes fuel l r st1 with
      | .ok b st2 => .ok (!b) st2
      | .ret h st2 => .ret h st2
      | .err e st2 => .err e st2
    | .ret h st1 => .ret h st1
    | .err e st1 => .err e st1
  | .le =>
    match lessF classes fuel l r st with
    | .ok true st1 => .ok true st1
    | .ok false st1 =>
      match equalF classes fuel l r st1 with
      | .ok b st2 => .ok b st2
      | .ret h st2 => .ret h st2
      | .err e st2 => .err e st2
    | .ret h st1 => .ret h st1
    | .err e st1 => .err e st1
  | .ge =>
    match lessF classes fuel l r st with
    | .ok b st1 => .ok (!b) st1
    | .ret h st1 => .ret h st1
    | .err e st1 => .err e st1
termination_by (fuel, 0, 3)

end

/-! ### The lexer (`lexer.h`, `lexer.cpp`) -/

/-- `parse::Token` (`token_type`): payload-bearing `Number` (C++ `int`),
`Id`, `Char`, `String`, the keywords, the two-character operators and the
structural tokens. -/
inductive Token where
  | number (n : Int)
  | id (s : String)
  | char (ch : Char)
  | str (s : String)
  | classT
  | returnT
  | ifT
  | elseT
  | defT
  | newline
  | printT
  | indent
  | dedent
  | andT
  | orT
  | notT
  | eqT
  | notEqT
  | lessOrEqT
  | greaterOrEqT
  | noneT
  | trueT
  | falseT
  | eof
deriving DecidableEq, Repr

/-- `parse::Lexer`'s state: the unread part of the input stream plus
`start_of_line_`, `current_indent_` and `line_indent_`. -/
structure LexSt where
  input : List Char
  startOfLine : Bool
  currentIndent : Nat
  lineIndent : Nat
deriving DecidableEq, Repr

/-- `util::IsNum` (`std::isdigit` in the C locale). -/
def isNumC (ch : Char) : Bool := '0' ≤ ch && ch ≤ '9'

/-- `util::IsAlpha` (`std::isalpha` in the C locale: ASCII letters). -/
def isAlphaC (ch : Char) : Bool := ('a' ≤ ch && ch ≤ 'z') || ('A' ≤ ch && ch ≤ 'Z')

/-- `util::IsAlNum`. -/
def isAlNumC (ch : Char) : Bool := isAlphaC ch || isNumC ch

/-- `util::IsAlNumLL`: letter, digit or underscore. -/
def isAlNumLLC (ch : Char) : Bool := isAlNumC ch || ch == '_'

/-- `util::ReadLine` as used by `Lexer::NextLine` (`std::getline`): drop
everything up to and including the first newline. -/
def dropLine (l : List Char) : List Char :=
  (l.dropWhile (fun x => !(x == '\n'))).drop 1

/-- `Lexer::NextLine`: consume the rest of the physical line, mark the start
of a line, reset `line_indent_`. -/
def nextLine (st : LexSt) : LexSt :=
  { st with input := dropLine st.input, startOfLine := true, lineIndent := 0 }

/-- The loop of `Lexer::ParseComment`: consume up to but not including the
next newline (the leading `#` is consumed by the caller's `input_.get`). -/
def dropToNewline (l : List Char) : List Char :=
  l.dropWhile (fun x => !(x == '\n'))

/-- `util::CountSpaces`: the length of the maximal space run. -/
def countSpaces (l : List Char) : Nat :=
  (l.takeWhile (fun x => x == ' ')).length

/-- The loop of `util::ReadString` after the opening quote `first`: honour the
escapes `\"`, `\'`, `\n`, `\t` (any other escaped character is dropped), stop
at an unescaped closing quote, and fail with "Failed to parse string : …" if
the input ends before one is found. -/
def readStringAux (first : Char) : List Char → String → Except String (String × List Char)
  | [], acc => Except.error ("Failed to parse string : " ++ acc)
  | ch :: rest, acc =>
    if ch == '\\' then
      match rest with
      | [] => Except.error ("Failed to parse string : " ++ acc)
      | nx :: rest2 =>
        if nx == '"' then readStringAux first rest2 (acc.push '"')
        else if nx == '\'' then readStringAux first rest2 (acc.push '\'')
        else if nx == 'n' then readStringAux first rest2 (acc.push '\n')
        else if nx == 't' then readStringAux first rest2 (acc.push '\t')
        else readStringAux first rest2 acc
    else if ch == first then Except.ok (acc, rest)
    else readStringAux first rest (acc.push ch)

/-- The numeric value of a decimal digit run. -/
def digitsToNat (ds : List Char) : Nat :=
  ds.foldl (fun a ch => a * 10 + (ch.toNat - '0'.toNat)) 0

/-- `util::ReadNumber`: read the maximal digit run and parse it with
`std::stoi`, which returns a C++ `int` and raises `std::out_of_range` when
the value exceeds `INT_MAX = 2147483647` (no sign is ever read, so only the
upper bound is reachable). -/
def readNumber (input : List Char) : Except String (Int × List Char) :=
  let ds := input.takeWhile isNumC
  let rest := input.dropWhile isNumC
  if ds.isEmpty then Except.ok (0, rest)
  else if digitsToNat ds ≤ 2147483647 then Except.ok ((digitsToNat ds : Int), rest)
  else Except.error "stoi: out of range"

/-- `util::ReadName`: the maximal run of letters, digits and underscores. -/
def readName (input : List Char) : String × List Char :=
  (String.mk (input.takeWhile isAlNumLLC), input.dropWhile isAlNumLLC)

/-- `util::KeyWords`: the keyword map, as its list of entries. -/
def keyWords : List (String × Token) :=
  [("class", Token.classT), ("return", Token.returnT), ("if", Token.ifT),
   ("else", Token.elseT), ("def", Token.defT), ("print", Token.printT),
   ("and", Token.andT), ("or", Token.orT), ("not", Token.notT),
   ("None", Token.noneT), ("True", Token.trueT), ("False", Token.falseT)]

/-- `KeyWords.count`/`KeyWords.at`: look a name up in the keyword map. -/
def keywordTok (s : String) : Option Token :=
  (keyWords.find? (fun p => p.1 == s)).map (fun p => p.2)

/-- `util::DualSymbols`: the two-character-operator map, as its entries. -/
def dualSymbols : List ((Char × Char) × Token) :=
  [(('=', '='), Token.eqT), (('!', '='), Token.notEqT),
   (('>', '='), Token.greaterOrEqT), (('<', '='), Token.lessOrEqT)]

/-- `DualSymbols.count`/`DualSymbols.at`: look a character pair up. -/
def dualTok (a b : Char) : Option Token :=
  (dualSymbols.find? (fun p => p.1 == (a, b))).map (fun p => p.2)

/-- `Lexer::ParseToken` (with `ParseName` and `ParseChar`): classify by the
next character — digit run, name (keyword or identifier), string literal, or
a one- or two-character symbol. -/
def parseTokenF (st : LexSt) : Except String (Token × LexSt) :=
  match st.input with
  | [] => Except.error "unreachable"
  | ch :: rest =>
    if isNumC ch then
      match readNumber (ch :: rest) with
      | Except.ok (n, r) => Except.ok (Token.number n, { st with input := r })
      | Except.error e => Except.error e
    else if isAlNumLLC ch then
      match keywordTok (readName (ch :: rest)).1 with
      | some t => Except.ok (t, { st with input := (readName (ch :: rest)).2 })
      | none =>
        Except.ok (Token.id (readName (ch :: rest)).1,
          { st with input := (readName (ch :: rest)).2 })
    else if ch == '"' || ch == '\'' then
      match readStringAux ch rest "" with
      | Except.ok (sv, r) => Except.ok (Token.str sv, { st with input := r })
      | Except.error e => Except.error e
    else
      match rest with
      | b :: rest2 =>
        match dualTok ch b with
        | some t => Except.ok (t, { st with input := rest2 })
        | none => Except.ok (Token.char ch, { st with input := rest })
      | [] => Except.ok (Token.char ch, { st with input := [] })

/-- `Lexer::ReadNextToken` (one *advance*), with the dispatch of
`ParseEOF` / `ParseLineEnd` / `ParseComment` / `ParseSpaces` / `ParseIndent` /
`ParseToken`.  The C++ loop always terminates because every retry consumes
input; the fuel argument makes that recursion structural and is always called
with more fuel than there are input characters, so the "fuel exhausted"
branch is unreachable (proved below). -/
def advanceAux : Nat → LexSt → Except String (Token × LexSt)
  | 0, _ => Except.error "fuel exhausted"
  | fuel + 1, st =>
    match st.input with
    | [] =>
      if st.startOfLine = false then
        Except.ok (Token.newline, nextLine st)
      else if 0 < st.currentIndent then
        Except.ok (Token.dedent, { st with currentIndent := st.currentIndent - 1 })
      else Except.ok (Token.eof, st)
    | ch :: rest =>
      if ch = '\n' then
        if st.startOfLine = true then advanceAux fuel (nextLine st)
        else Except.ok (Token.newline, nextLine st)
      else if ch = '#' then
        advanceAux fuel { st with input := dropToNewline rest }
      else if ch = ' ' then
        if st.startOfLine = true then
          advanceAux fuel
            { st with
              input := st.input.dropWhile (fun x => x == ' ')
              lineIndent := countSpaces st.input / 2 }
        else
          advanceAux fuel { st with input := st.input.dropWhile (fun x => x == ' ') }
      else if st.startOfLine = true ∧ st.currentIndent ≠ st.lineIndent then
        if st.currentIndent < st.lineIndent then
          Except.ok (Token.indent, { st with currentIndent := st.currentIndent + 1 })
        else Except.ok (Token.dedent, { st with currentIndent := st.currentIndent - 1 })
      else
        match parseTokenF st with
        | Except.ok (t, st1) => Except.ok (t, { st1 with startOfLine := false })
        | Except.error e => Except.error e

/-- One *advance* call: `NextToken` / the constructor's first
`ReadNextToken`. -/
def advance (st : LexSt) : Except String (Token × LexSt) :=
  advanceAux (st.input.length + 1) st

/-- The lexer's initial state on a source text. -/
def initLex (s : String) : LexSt :=
  { input := s.data, startOfLine := true, currentIndent := 0, lineIndent := 0 }

/-- The token stream: repeated *advance* up to and including the first `Eof`.
The fuel bounds the number of tokens; "fuel exhausted" is never the outcome
for a sufficiently large fuel (proved below). -/
def lexAllF : Nat → LexSt → Except String (List Token)
  | 0, _ => Except.error "fuel exhausted"
  | fuel + 1, st =>
    match advance st with
    | Except.error e => Except.error e
    | Except.ok (t, st1) =>
      if t = Token.eof then Except.ok [t]
      else
        match lexAllF fuel st1 with
        | Except.ok ts => Except.ok (t :: ts)
        | Except.error e => Except.error e

/-- Occurrence count of a token in a token list. -/
def countTok (t : Token) : List Token → Nat
  | [] => 0
  | x :: rest => (if x == t then 1 else 0) + countTok t rest

/-! ### Concrete fixtures used to instantiate the theorems -/

/-- An empty world: no instances, nothing written yet. -/
def emptyState : State := { heap := [], output := "" }

/-- A two-class program: `Base` defines `__init__(a, b)` (arity 2); `Child`
derives from `Base` and defines `__init__(a)` (arity 1), `g()` which returns
`42`, and `f()` which calls `self.g()` and then returns `7`. -/
def egClasses : List ClassC :=
  [{ name := "Base",
     methods := [{ name := "__init__", formalParams := ["a", "b"],
                   body := Stmt.methodBody
                     (Stmt.fieldAssign "self" [] "x" (Stmt.variableValue "a" [])) }],
     parent := none },
   { name := "Child",
     methods :=
       [{ name := "__init__", formalParams := ["a"],
          body := Stmt.methodBody
            (Stmt.fieldAssign "self" [] "x" (Stmt.variableValue "a" [])) },
        { name := "g", formalParams := [],
          body := Stmt.methodBody (Stmt.ret (Stmt.numConst 42)) },
        { name := "f", formalParams := [],
          body := Stmt.methodBody (Stmt.compound
            [Stmt.assign "y" (Stmt.methodCall (Stmt.variableValue "self" []) "g" []),
             Stmt.ret (Stmt.numConst 7)]) }],
     parent := some 0 }]

/-- One uninitialized instance of `Child` at heap index 0. -/
def egState : State := { heap := [{ cls := 1, fields := [] }], output := "" }

/-- Two objects of the same primitive kind (`Bool`/`Bool`, `Number`/`Number`
or `String`/`String`). -/
def sameKindPrim (a b : Obj) : Bool :=
  match a, b with
  | Obj.bool _, Obj.bool _ => true
  | Obj.num _, Obj.num _ => true
  | Obj.str _, Obj.str _ => true
  | _, _ => false

/-! ### Theorems -/

/-- **C1** — Return locality: a `Return` executed inside a body transfers its
handle to the dynamically innermost `MethodBody`, which returns it; a
`MethodBody` never lets a return transfer escape (so a caller's `MethodBody`
returns its own value, never the callee's); intermediate nodes mid-evaluation
are abandoned by the transfer; and a `ClassInstance::Call` of a method whose
stored body is a `MethodBody` delivers the `return`ed handle as the call's
result to the caller's continuation. -/
theorem C1_return_locality (classes : List ClassC) :
    (∀ fuel b c st x c' st', exec classes fuel b c st = CERes.ret x c' st' →
      exec classes fuel (Stmt.methodBody b) c st = CERes.ok x c' st')
    ∧ (∀ fuel b c st v c' st', exec classes fuel b c st = CERes.ok v c' st' →
      exec classes fuel (Stmt.methodBody b) c st = CERes.ok none c' st')
    ∧ (∀ fuel b c st x c' st',
      exec classes fuel (Stmt.methodBody b) c st ≠ CERes.ret x c' st')
    ∧ (∀ fuel s1 s2 c st x c' st', exec classes fuel s1 c st = CERes.ret x c' st' →
      exec classes fuel (Stmt.compound [s1, s2]) c st = CERes.ret x c' st')
    ∧ (∀ fuel iid mname argv st i mtd b x c2 st2,
      st.heap[iid]? = some i →
      hasMethod classes i.cls mname argv.length = true →
      getMethod classes i.cls mname = some mtd →
      mtd.body = Stmt.methodBody b →
      exec classes fuel b
          (bindParams [("self", some (Obj.inst iid))] mtd.formalParams argv) st
        = CERes.ret x c2 st2 →
      callMethod classes (fuel + 1) iid mname argv st = RRes.ok x st2) := by
  refine ⟨?_, ?_, ?_, ?_, ?_⟩
  · intro fuel b c st x c' st' h
    simp only [exec, h]
  · intro fuel b c st v c' st' h
    simp only [exec, h]
  · intro fuel b c st x c' st' h
    rcases hb : exec classes fuel b c st with hv | hv | hv <;>
      (simp only [exec, hb] at h; cases h)
  · intro fuel s1 s2 c st x c' st' h
    simp only [exec, execArgs, h]
  · intro fuel iid mname argv st i mtd b x c2 st2 hheap hhas hget hbody hexec
    simp only [callMethod, hheap, hhas, hget, hbody, exec, hexec]

/-- **C1** witness: in the two-class fixture, calling `g` (whose body is a
`MethodBody` around `return 42`) yields `42` to the caller. -/
theorem C1_witness :
    callMethod egClasses 3 0 "g" [] egState = RRes.ok (some (Obj.num 42)) egState := by
  have h := (C1_return_locality egClasses).2.2.2.2 2 0 "g" [] egState
    ⟨1, []⟩ { name := "g", formalParams := [],
              body := Stmt.methodBody (Stmt.ret (Stmt.numConst 42)) }
    (Stmt.ret (Stmt.numConst 42)) (some (Obj.num 42))
    [("self", some (Obj.inst 0))] egState
  exact h rfl (by decide) rfl rfl (by simp [exec, bindParams])

/-- **C2** — `MethodBody` catches only the return transfer: a runtime error
raised in the body propagates out of `MethodBody::Execute` unchanged, while a
thrown value handle is converted into the method's normal result, so the
error channel and the return channel never mix. -/
theorem C2_errors_propagate (classes : List ClassC) :
    (∀ fuel b c st e c' st', exec classes fuel b c st = CERes.err e c' st' →
      exec classes fuel (Stmt.methodBody b) c st = CERes.err e c' st')
    ∧ (∀ fuel b c st x c' st', exec classes fuel b c st = CERes.ret x c' st' →
      exec classes fuel (Stmt.methodBody b) c st = CERes.ok x c' st') := by
  constructor
  · intro fuel b c st e c' st' h
    simp only [exec, h]
  · intro fuel b c st x c' st' h
    simp only [exec, h]

/-- **C2** witness: an unbound-variable error inside a `MethodBody` escapes it
unchanged. -/
theorem C2_witness :
    exec [] 1 (Stmt.methodBody (Stmt.variableValue "nope" [])) [] emptyState
      = CERes.err "Variable nope not found" [] emptyState := by
  exact (C2_errors_propagate []).1 1 (Stmt.variableValue "nope" []) [] emptyState
    "Variable nope not found" [] emptyState (by simp [exec, varLookup, cloFind])

/-- **C3** — `And`/`Or` results: both produce an owning handle to a `Bool`
carrying the truthiness of the last evaluated operand — `Or` gives
`Bool(true)` on a truthy left operand and `Bool(truthy(r))` otherwise; `And`
gives `Bool(false)` on a falsy left operand and `Bool(truthy(r))` otherwise;
in particular `0 or "fallback"` evaluates to `Bool(true)`, not the string. -/
theorem C3_and_or_bool (classes : List ClassC) :
    (∀ fuel l r c st lh c1 st1, exec classes fuel l c st = CERes.ok lh c1 st1 →
      (isTrue lh = true →
        exec classes fuel (Stmt.orS l r) c st = CERes.ok (some (Obj.bool true)) c1 st1)
      ∧ (∀ rh c2 st2, isTrue lh = false →
          exec classes fuel r c1 st1 = CERes.ok rh c2 st2 →
          exec classes fuel (Stmt.orS l r) c st
            = CERes.ok (some (Obj.bool (isTrue rh))) c2 st2)
      ∧ (isTrue lh = false →
        exec classes fuel (Stmt.andS l r) c st = CERes.ok (some (Obj.bool false)) c1 st1)
      ∧ (∀ rh c2 st2, isTrue lh = true →
          exec classes fuel r c1 st1 = CERes.ok rh c2 st2 →
          exec classes fuel (Stmt.andS l r) c st
            = CERes.ok (some (Obj.bool (isTrue rh))) c2 st2))
    ∧ (∀ fuel c st,
        exec classes fuel (Stmt.orS (Stmt.numConst 0) (Stmt.strConst "fallback")) c st
          = CERes.ok (some (Obj.bool true)) c st) := by
  constructor
  · intro fuel l r c st lh c1 st1 hl
    refine ⟨?_, ?_, ?_, ?_⟩
    · intro ht; simp only [exec, hl, ht]
    · intro rh c2 st2 hf hr; simp only [exec, hl, hf, hr]
    · intro hf; simp only [exec, hl, hf]
    · intro rh c2 st2 ht hr; simp only [exec, hl, ht, hr]
  · intro fuel c st
    simp +decide [exec, isTrue]

/-- **C3** witness: instantiating the general part at a truthy string left
operand of `Or`. -/
theorem C3_witness :
    exec [] 1 (Stmt.orS (Stmt.strConst "x") (Stmt.numConst 0)) [] emptyState
      = CERes.ok (some (Obj.bool true)) [] emptyState := by
  exact ((C3_and_or_bool []).1 1 (Stmt.strConst "x") (Stmt.numConst 0) [] emptyState
    (some (Obj.str "x")) [] emptyState (by simp [exec])).1 (by decide)

/-- **C4** — short-circuiting is effect-free on the skipped operand: when the
left operand of `And` is falsy (resp. of `Or` is truthy), the overall result
is exactly the state after evaluating the left operand — the right operand's
effects on closures, the heap and the output never happen, and the result
does not depend on the right operand at all. -/
theorem C4_short_circuit_effect_free (classes : List ClassC) :
    ∀ fuel l c st lh c1 st1, exec classes fuel l c st = CERes.ok lh c1 st1 →
      (isTrue lh = false → ∀ r r',
        exec classes fuel (Stmt.andS l r) c st = CERes.ok (some (Obj.bool false)) c1 st1
        ∧ exec classes fuel (Stmt.andS l r) c st = exec classes fuel (Stmt.andS l r') c st)
      ∧ (isTrue lh = true → ∀ r r',
        exec classes fuel (Stmt.orS l r) c st = CERes.ok (some (Obj.bool true)) c1 st1
        ∧ exec classes fuel (Stmt.orS l r) c st = exec classes fuel (Stmt.orS l r') c st) := by
  intro fuel l c st lh c1 st1 hl
  constructor
  · intro hf r r'
    constructor <;> simp only [exec, hl, hf]
  · intro ht r r'
    constructor <;> simp only [exec, hl, ht]

/-- **C4** witness: `And` with a falsy left operand skips a `print` right
operand — the output stays empty. -/
theorem C4_witness :
    exec [] 1 (Stmt.andS (Stmt.numConst 0) (Stmt.print [Stmt.strConst "boom"])) [] emptyState
      = CERes.ok (some (Obj.bool false)) [] emptyState := by
  exact ((C4_short_circuit_effect_free [] 1 (Stmt.numConst 0) [] emptyState
    (some (Obj.num 0)) [] emptyState (by simp [exec])).1 (by decide)
    (Stmt.print [Stmt.strConst "boom"]) (Stmt.noneConst)).1

/-- **C6** — `Div`: both operands are evaluated (a transfer or error raised by
the right operand propagates); a right operand equal to `Number(0)` fails
with "Division by zero" before any division, regardless of the left operand's
kind; the zero check happens only for a `Number` right operand — any
non-number right operand falls through to the generic "Can divide only
numbers" error, as does a non-number left operand, and two numbers with a
nonzero divisor divide to `Number(l / r)` (C++ truncating division). -/
theorem C6_div (classes : List ClassC) :
    ∀ fuel l r c st lh c1 st1, exec classes fuel l c st = CERes.ok lh c1 st1 →
      (∀ rh c2 st2, exec classes fuel r c1 st1 = CERes.ok rh c2 st2 →
        (rh = some (Obj.num 0) →
          exec classes fuel (Stmt.div l r) c st = CERes.err "Division by zero" c2 st2)
        ∧ (∀ a b, lh = some (Obj.num a) → rh = some (Obj.num b) → b ≠ 0 →
          exec classes fuel (Stmt.div l r) c st
            = CERes.ok (some (Obj.num (Int.tdiv a b))) c2 st2)
        ∧ ((∀ b, rh ≠ some (Obj.num b)) →
          exec classes fuel (Stmt.div l r) c st = CERes.err "Can divide only numbers" c2 st2)
        ∧ ((∀ a, lh ≠ some (Obj.num a)) → ∀ b, rh = some (Obj.num b) → b ≠ 0 →
          exec classes fuel (Stmt.div l r) c st = CERes.err "Can divide only numbers" c2 st2))
      ∧ (∀ x c2 st2, exec classes fuel r c1 st1 = CERes.ret x c2 st2 →
          exec classes fuel (Stmt.div l r) c st = CERes.ret x c2 st2)
      ∧ (∀ e c2 st2, exec classes fuel r c1 st1 = CERes.err e c2 st2 →
          exec classes fuel (Stmt.div l r) c st = CERes.err e c2 st2) := by
  intro fuel l r c st lh c1 st1 hl
  refine ⟨?_, ?_, ?_⟩
  · intro rh c2 st2 hr
    refine ⟨?_, ?_, ?_, ?_⟩
    · intro h0; subst h0
      simp only [exec, hl, hr]; norm_num
    · intro a b ha hb hb0; subst ha; subst hb
      simp only [exec, hl, hr, beq_iff_eq, if_neg hb0]
    · intro hnn
      rcases rh with _ | (b | n | s | cid | iid)
      · simp [exec, hl, hr]
      · rcases lh with _ | (b' | n' | s' | cid' | iid') <;> simp [exec, hl, hr]
      · exact absurd rfl (hnn n)
      · rcases lh with _ | (b' | n' | s' | cid' | iid') <;> simp [exec, hl, hr]
      · rcases lh with _ | (b' | n' | s' | cid' | iid') <;> simp [exec, hl, hr]
      · rcases lh with _ | (b' | n' | s' | cid' | iid') <;> simp [exec, hl, hr]
    · intro hln b hb hb0; subst hb
      have hb0f : (b == 0) = false := beq_eq_false_iff_ne.mpr hb0
      rcases lh with _ | (b' | n' | s' | cid' | iid')
      · simp [exec, hl, hr, hb0f]
      · simp [exec, hl, hr, hb0f]
      · exact absurd rfl (hln n')
      · simp [exec, hl, hr, hb0f]
      · simp [exec, hl, hr, hb0f]
      · simp [exec, hl, hr, hb0f]
  · intro x c2 st2 hr
    simp only [exec, hl, hr]
  · intro e c2 st2 hr
    simp only [exec, hl, hr]

/-- **C6** witness: `7 / 0` raises "Division by zero" even though both
operands are numbers, and before any division. -/
theorem C6_witness :
    exec [] 1 (Stmt.div (Stmt.numConst 7) (Stmt.numConst 0)) [] emptyState
      = CERes.err "Division by zero" [] emptyState := by
  exact (((C6_div [] 1 (Stmt.numConst 7) (Stmt.numConst 0) [] emptyState
    (some (Obj.num 7)) [] emptyState (by simp [exec])).1
    (some (Obj.num 0)) [] emptyState (by simp [exec])).1) rfl

/-- **C10** — `NewInstance` without a matching `__init__`: when the class of
the node's instance has no `__init__` whose formal-parameter count equals the
argument count (`HasMethod` checks the nearest definition found by
`GetMethod`, so a nearer `__init__` of different arity hides a matching
ancestor one), no argument expression is evaluated — the closure, the heap
and the output are returned exactly as they were — and the node returns a
shared handle to the (uninitialized) instance. -/
theorem C10_new_instance_skips_init (classes : List ClassC) :
    (∀ fuel iid args c st i, st.heap[iid]? = some i →
      hasMethod classes i.cls "__init__" args.length = false →
      exec classes fuel (Stmt.newInstance iid args) c st
        = CERes.ok (some (Obj.inst iid)) c st)
    ∧ (∀ cid mtd n, getMethod classes cid "__init__" = some mtd →
      mtd.formalParams.length ≠ n →
      hasMethod classes cid "__init__" n = false) := by
  constructor
  · intro fuel iid args c st i hheap hno
    simp only [exec, hheap, hno]
  · intro cid mtd n hget hlen
    simp only [hasMethod, hget, beq_iff_eq]
    exact decide_eq_false hlen

/-- **C10** witness: `Child` defines `__init__(a)`; constructing with two
arguments skips initialization (even though `Base.__init__` has arity 2) and
in particular never evaluates the `print` argument: the output stays
untouched. -/
theorem C10_witness :
    exec egClasses 1
        (Stmt.newInstance 0 [Stmt.print [Stmt.strConst "boom"], Stmt.numConst 5])
        [] egState
      = CERes.ok (some (Obj.inst 0)) [] egState := by
  exact (C10_new_instance_skips_init egClasses).1 1 0
    [Stmt.print [Stmt.strConst "boom"], Stmt.numConst 5] [] egState
    ⟨1, []⟩ rfl (by decide)

/-- **C9** — Stringify/Print consistency: printing the stringification of any
argument writes exactly the same text (and produces exactly the same world)
as printing the argument itself — including for the empty handle, which both
render as the literal `None`; and `Stringify` returns an owning handle to a
`String` holding precisely the text the §4.2 print rule produces for the
argument's value. -/
theorem C9_stringify_print (classes : List ClassC) :
    (∀ fuel a c st,
      exec classes fuel (Stmt.print [Stmt.stringify a]) c st
        = exec classes fuel (Stmt.print [a]) c st)
    ∧ (∀ fuel a c st v c1 st1, exec classes fuel a c st = CERes.ok v c1 st1 →
      (v = none →
        exec classes fuel (Stmt.stringify a) c st
          = CERes.ok (some (Obj.str "None")) c1 st1)
      ∧ (∀ t st2, objPrint classes fuel v st1 = RRes.ok t st2 →
        exec classes fuel (Stmt.stringify a) c st = CERes.ok (some (Obj.str t)) c1 st2)) := by
  constructor
  · intro fuel a c st
    rcases ha : exec classes fuel a c st with ⟨v, c1, st1⟩ | ⟨h, c1, st1⟩ | ⟨e, c1, st1⟩
    · rcases v with _ | o
      · simp [exec, execPrintArgs, objPrint, ha]
      · rcases hp : objPrint classes fuel (some o) st1 with ⟨t, st2⟩ | ⟨h2, st2⟩ | ⟨e2, st2⟩ <;>
          simp [exec, execPrintArgs, objPrint, ha, hp]
    · simp [exec, execPrintArgs, ha]
    · simp [exec, execPrintArgs, ha]
  · intro fuel a c st v c1 st1 ha
    constructor
    · intro hv; subst hv
      simp only [exec, ha]
    · intro t st2 hp
      rcases v with _ | o
      · simp only [objPrint] at hp; cases hp
      · simp only [exec, ha, hp]

/-- **C9** witness: stringifying the number `5` yields the string `"5"`, the
§4.2 text for it. -/
theorem C9_witness :
    exec [] 1 (Stmt.stringify (Stmt.numConst 5)) [] emptyState
      = CERes.ok (some (Obj.str "5")) [] emptyState := by
  exact ((C9_stringify_print []).2 1 (Stmt.numConst 5) [] emptyState
    (some (Obj.num 5)) [] emptyState (by simp [exec])).2 "5" emptyState
    (by simp only [objPrint]; rfl)

/-- **C7** counterexample — the claim quantifies over *every* pair drawn from
the primitive kinds, mixed kinds included, and asserts no comparison of such
a pair raises a runtime error; but comparing `Bool(true)` with `Number(3)`
raises "Cannot compare objects" from both `Equal` and `Less` (the `Comp`
helper finds no same-kind match and the operands are neither instances nor a
pair of empty handles, so the error is rethrown). -/
theorem C7_counterexample :
    equalF [] 0 (some (Obj.bool true)) (some (Obj.num 3)) emptyState
      = RRes.err "Cannot compare objects" emptyState
    ∧ lessF [] 0 (some (Obj.bool true)) (some (Obj.num 3)) emptyState
      = RRes.err "Cannot compare objects" emptyState := by
  constructor <;> simp [equalF, lessF, comp]

/-- **C7** (amended) — comparison totality on *same-kind* primitive pairs:
for two `Bool`s, two `Number`s or two `String`s, `Less` and `Equal` never
raise, leave the world untouched, and exactly one of
`Less(a,b) ∧ ¬Equal(a,b)`, `Equal(a,b)`, `Less(b,a) ∧ ¬Equal(a,b)` holds. -/
theorem C7_amended (classes : List ClassC) :
    ∀ fuel st a b, sameKindPrim a b = true →
      ∃ lt eq gt : Bool,
        lessF classes fuel (some a) (some b) st = RRes.ok lt st
        ∧ equalF classes fuel (some a) (some b) st = RRes.ok eq st
        ∧ lessF classes fuel (some b) (some a) st = RRes.ok gt st
        ∧ ((lt = true ∧ eq = false ∧ gt = false)
          ∨ (eq = true ∧ lt = false ∧ gt = false)
          ∨ (gt = true ∧ eq = false ∧ lt = false)) := by
  intro fuel st a b hk
  rcases a with xa | xa | xa | xa | xa <;> rcases b with xb | xb | xb | xb | xb <;>
    simp [sameKindPrim] at hk
  · exact ⟨!xa && xb, xa == xb, !xb && xa,
      by simp [lessF, comp], by simp [equalF, comp], by simp [lessF, comp],
      by rcases xa <;> rcases xb <;> simp⟩
  · refine ⟨decide (xa < xb), xa == xb, decide (xb < xa),
      by simp [lessF, comp], by simp [equalF, comp], by simp [lessF, comp], ?_⟩
    simp only [decide_eq_true_eq, decide_eq_false_iff_not, beq_iff_eq,
      beq_eq_false_iff_ne, ne_eq]
    omega
  · refine ⟨decide (xa < xb), xa == xb, decide (xb < xa),
      by simp [lessF, comp], by simp [equalF, comp], by simp [lessF, comp], ?_⟩
    simp only [decide_eq_true_eq, decide_eq_false_iff_not, beq_iff_eq,
      beq_eq_false_iff_ne, ne_eq]
    rcases lt_trichotomy xa xb with h | h | h
    · exact Or.inl ⟨h, fun he => absurd he (ne_of_lt h), not_lt_of_gt h⟩
    · exact Or.inr (Or.inl ⟨h, fun hl => absurd h (ne_of_lt hl), fun hl =>
        absurd h.symm (ne_of_lt hl)⟩)
    · exact Or.inr (Or.inr ⟨h, fun he => absurd he.symm (ne_of_lt h), not_lt_of_gt h⟩)

/-- **C7** witness: the amended theorem at the `Number` pair `(1, 2)`. -/
theorem C7_witness :
    ∃ lt eq gt : Bool,
      lessF [] 0 (some (Obj.num 1)) (some (Obj.num 2)) emptyState = RRes.ok lt emptyState
      ∧ equalF [] 0 (some (Obj.num 1)) (some (Obj.num 2)) emptyState = RRes.ok eq emptyState
      ∧ lessF [] 0 (some (Obj.num 2)) (some (Obj.num 1)) emptyState = RRes.ok gt emptyState
      ∧ ((lt = true ∧ eq = false ∧ gt = false)
        ∨ (eq = true ∧ lt = false ∧ gt = false)
        ∨ (gt = true ∧ eq = false ∧ lt = false)) :=
  C7_amended [] 0 emptyState (Obj.num 1) (Obj.num 2) (by decide)

/-! ### Lexer lemmas -/

/-- A successful `ReadString` leaves no more input than it started with. -/
theorem readStringAux_length (first : Char) :
    ∀ (n : Nat) (l : List Char) (acc sv : String) (r : List Char), l.length ≤ n →
      readStringAux first l acc = Except.ok (sv, r) → r.length ≤ l.length := by
  intro n
  induction n with
  | zero =>
    intro l acc sv r hl h
    rcases l with _ | ⟨ch, rest⟩
    · exact absurd h (by simp [readStringAux])
    · exact absurd hl (by simp only [List.length_cons]; omega)
  | succ n ih =>
    intro l acc sv r hl h
    rcases l with _ | ⟨ch, rest⟩
    · exact absurd h (by simp [readStringAux])
    · rw [readStringAux.eq_def] at h
      simp only [] at h
      by_cases h1 : (ch == '\\') = true
      · rw [if_pos h1] at h
        rcases rest with _ | ⟨nx, rest2⟩
        · cases h
        · simp only [] at h
          have hn : rest2.length ≤ n := by simp at hl; omega
          have hgoal : rest2.length ≤ (ch :: nx :: rest2).length := by
            simp only [List.length_cons]; omega
          split_ifs at h <;>
            exact le_trans (ih rest2 _ sv r hn h) hgoal
      · rw [if_neg h1] at h
        by_cases h2 : (ch == first) = true
        · rw [if_pos h2] at h
          injection h with h'
          injection h' with hsv hr
          subst hr; simp
        · rw [if_neg h2] at h
          have hn : rest.length ≤ n := by simp at hl; omega
          exact le_trans (ih rest _ sv r hn h) (by simp)

/-- Dropping a prefix never lengthens a list. -/
theorem length_dropWhile_le (p : Char → Bool) (l : List Char) :
    (l.dropWhile p).length ≤ l.length :=
  (List.dropWhile_sublist p).length_le

/-- A successful `ReadNumber` consumes exactly the maximal digit run. -/
theorem readNumber_rest :
    ∀ (l : List Char) (n : Int) (r : List Char), readNumber l = Except.ok (n, r) →
      r = l.dropWhile isNumC := by
  intro l n r h
  simp only [readNumber] at h
  split_ifs at h <;> (injection h with h'; injection h' with _ hr; exact hr.symm)

/-- No keyword maps to a structural token. -/
theorem keywordTok_not_structural (s : String) (t : Token) (h : keywordTok s = some t) :
    t ≠ Token.eof ∧ t ≠ Token.indent ∧ t ≠ Token.dedent := by
  simp only [keywordTok, Option.map_eq_some'] at h
  obtain ⟨p, hf, hp⟩ := h
  have hmem := List.mem_of_find?_eq_some hf
  subst hp
  simp only [keyWords, List.mem_cons, List.not_mem_nil, or_false] at hmem
  rcases hmem with h | h | h | h | h | h | h | h | h | h | h | h <;> (subst h; exact ⟨by simp, by simp, by simp⟩)

/-- No two-character operator maps to a structural token. -/
theorem dualTok_not_structural (a b : Char) (t : Token) (h : dualTok a b = some t) :
    t ≠ Token.eof ∧ t ≠ Token.indent ∧ t ≠ Token.dedent := by
  simp only [dualTok, Option.map_eq_some'] at h
  obtain ⟨p, hf, hp⟩ := h
  have hmem := List.mem_of_find?_eq_some hf
  subst hp
  simp only [dualSymbols, List.mem_cons, List.not_mem_nil, or_false] at hmem
  rcases hmem with h | h | h | h <;> (subst h; exact ⟨by simp, by simp, by simp⟩)

/-- `ParseToken` never produces `Eof`, touches none of the indentation
bookkeeping, and never lengthens the input. -/
theorem parseTokenF_spec :
    ∀ st t st1, parseTokenF st = Except.ok (t, st1) →
      (t ≠ Token.eof ∧ t ≠ Token.indent ∧ t ≠ Token.dedent)
      ∧ st1.startOfLine = st.startOfLine
      ∧ st1.currentIndent = st.currentIndent
      ∧ st1.lineIndent = st.lineIndent
      ∧ st1.input.length < st.input.length := by
  intro st t st1 h
  unfold parseTokenF at h
  split at h
  · cases h
  · rename_i ch rest heq
    rw [heq]
    split_ifs at h with h1 h2 h3
    · split at h
      · rename_i n r hrn
        injection h with h'; injection h' with ht hst
        subst ht; subst hst
        refine ⟨⟨by simp, by simp, by simp⟩, rfl, rfl, rfl, ?_⟩
        rw [readNumber_rest _ _ _ hrn, List.dropWhile_cons, if_pos h1]
        have := length_dropWhile_le isNumC rest
        simp only [List.length_cons]; omega
      · cases h
    · rcases hg : readName (ch :: rest) with ⟨nm, rr⟩
      rw [hg] at h
      have hr2 : rr.length < (ch :: rest).length := by
        have hsnd := congrArg Prod.snd hg
        simp only [readName] at hsnd
        rw [← hsnd, List.dropWhile_cons, if_pos h2]
        have := length_dropWhile_le isAlNumLLC rest
        simp only [List.length_cons]; omega
      split at h
      · rename_i t0 hkw
        injection h with h'; injection h' with ht hst
        subst hst; subst ht
        exact ⟨keywordTok_not_structural _ _ hkw, rfl, rfl, rfl, hr2⟩
      · injection h with h'; injection h' with ht hst
        subst hst; subst ht
        exact ⟨⟨by simp, by simp, by simp⟩, rfl, rfl, rfl, hr2⟩
    · split at h
      · rename_i sv r hrs
        injection h with h'; injection h' with ht hst
        subst ht; subst hst
        refine ⟨⟨by simp, by simp, by simp⟩, rfl, rfl, rfl, ?_⟩
        have := readStringAux_length ch rest.length rest "" sv r le_rfl hrs
        simp only [List.length_cons]
        omega
      · cases h
    · split at h
      · rename_i b rest2
        split at h
        · rename_i t0 hd
          injection h with h'; injection h' with ht hst
          subst hst; subst ht
          exact ⟨dualTok_not_structural _ _ _ hd, rfl, rfl, rfl,
            by simp only [List.length_cons]; omega⟩
        · injection h with h'; injection h' with ht hst
          subst hst; subst ht
          exact ⟨⟨by simp, by simp, by simp⟩, rfl, rfl, rfl,
            by simp only [List.length_cons]; omega⟩
      · injection h with h'; injection h' with ht hst
        subst hst; subst ht
        exact ⟨⟨by simp, by simp, by simp⟩, rfl, rfl, rfl,
          by simp only [List.length_cons]; omega⟩

/-- `ReadString` fails only with a "Failed to parse string : …" message. -/
theorem readStringAux_error_shape (first : Char) :
    ∀ (n : Nat) (l : List Char) (acc e : String), l.length ≤ n →
      readStringAux first l acc = Except.error e →
      ∃ a, e = "Failed to parse string : " ++ a := by
  intro n
  induction n with
  | zero =>
    intro l acc e hl h
    rcases l with _ | ⟨ch, rest⟩
    · simp only [readStringAux] at h
      injection h with he; exact ⟨acc, he.symm⟩
    · exact absurd hl (by simp only [List.length_cons]; omega)
  | succ n ih =>
    intro l acc e hl h
    rcases l with _ | ⟨ch, rest⟩
    · simp only [readStringAux] at h
      injection h with he; exact ⟨acc, he.symm⟩
    · rw [readStringAux.eq_def] at h
      simp only [] at h
      by_cases h1 : (ch == '\\') = true
      · rw [if_pos h1] at h
        rcases rest with _ | ⟨nx, rest2⟩
        · injection h with he; exact ⟨acc, he.symm⟩
        · simp only [] at h
          have hn : rest2.length ≤ n := by simp only [List.length_cons] at hl; omega
          split_ifs at h <;> exact ih rest2 _ e hn h
      · rw [if_neg h1] at h
        by_cases h2 : (ch == first) = true
        · rw [if_pos h2] at h; cases h
        · rw [if_neg h2] at h
          exact ih rest _ e (by simp only [List.length_cons] at hl; omega) h

/-- `ParseToken` never fails with the fuel-exhaustion marker: its errors come
from `ReadString` and `ReadNumber`. -/
theorem parseTokenF_error_real :
    ∀ st e, parseTokenF st = Except.error e → e ≠ "fuel exhausted" := by
  intro st e h
  unfold parseTokenF at h
  split at h
  · injection h with he; subst he; decide
  · rename_i ch rest heq
    split_ifs at h with h1 h2 h3
    · split at h
      · cases h
      · rename_i e0 hrn
        injection h with he; subst he
        simp only [readNumber] at hrn
        split_ifs at hrn
        all_goals try cases hrn
        all_goals decide
    · split at h
      · cases h
      · cases h
    · split at h
      · cases h
      · rename_i e0 hrs
        injection h with he; subst he
        obtain ⟨a, ha⟩ := readStringAux_error_shape ch rest.length rest "" e0 le_rfl hrs
        subst ha
        intro hcontra
        have hlen := congrArg String.length hcontra
        simp only [String.length_append] at hlen
        have h25 : ("Failed to parse string : ").length = 25 := rfl
        have h14 : ("fuel exhausted").length = 14 := rfl
        omega
    · split at h
      · split at h
        · cases h
        · cases h
      · cases h

/-- One *advance* with fuel exceeding the unread input never reports fuel
exhaustion: every internal retry consumes at least one character. -/
theorem advanceAux_no_fuel_err :
    ∀ (f : Nat) (st : LexSt), st.input.length < f →
      ∀ e, advanceAux f st = Except.error e → e ≠ "fuel exhausted" := by
  intro f
  induction f with
  | zero => intro st h; exact absurd h (Nat.not_lt_zero _)
  | succ f ih =>
    intro st hlen e h
    simp only [advanceAux] at h
    split at h
    · split_ifs at h
    · rename_i ch rest hin
      by_cases h1 : ch = '\n'
      · rw [if_pos h1] at h
        by_cases hs : st.startOfLine = true
        · rw [if_pos hs] at h
          refine ih (nextLine st) ?_ e h
          have hrest : (nextLine st).input = rest := by
            simp [nextLine, dropLine, hin, h1]
          rw [hrest]
          rw [hin] at hlen; simp only [List.length_cons] at hlen; omega
        · rw [if_neg hs] at h; cases h
      · rw [if_neg h1] at h
        by_cases h2 : ch = '#'
        · rw [if_pos h2] at h
          refine ih _ ?_ e h
          show (dropToNewline rest).length < f
          have hd : (dropToNewline rest).length ≤ rest.length := by
            simp only [dropToNewline]; exact length_dropWhile_le _ _
          rw [hin] at hlen; simp only [List.length_cons] at hlen; omega
        · rw [if_neg h2] at h
          by_cases h3 : ch = ' '
          · rw [if_pos h3] at h
            have hlt : (st.input.dropWhile (fun x => x == ' ')).length < f := by
              rw [hin, List.dropWhile_cons]
              subst h3
              simp only [beq_self_eq_true, if_true]
              have hd := length_dropWhile_le (fun x => x == ' ') rest
              rw [hin] at hlen; simp only [List.length_cons] at hlen; omega
            by_cases hs : st.startOfLine = true
            · rw [if_pos hs] at h
              exact ih _ hlt e h
            · rw [if_neg hs] at h
              exact ih _ hlt e h
          · rw [if_neg h3] at h
            by_cases h4 : st.startOfLine = true ∧ st.currentIndent ≠ st.lineIndent
            · rw [if_pos h4] at h
              split_ifs at h
            · rw [if_neg h4] at h
              rcases hp : parseTokenF st with e0 | ⟨t0, st1⟩
              · rw [hp] at h; simp only [] at h
                injection h with he; subst he
                exact parseTokenF_error_real st e0 hp
              · rw [hp] at h; simp only [] at h; cases h

/-- Full characterization of one successful *advance*: the unread input never
grows; `current_indent` moves by exactly the emitted token's indent/dedent
weight; `Eof` is emitted only with `current_indent = 0`; and a non-`Eof` token
either consumed input or is one of the three non-consuming emissions — the
virtual `Newline` at end of input, one end-of-input `Dedent`, or a pending
indentation adjustment. -/
theorem advanceAux_step :
    ∀ (f : Nat) (st : LexSt) (t : Token) (st' : LexSt), st.input.length < f →
      advanceAux f st = Except.ok (t, st') →
      st'.input.length ≤ st.input.length
      ∧ st'.currentIndent + (if t = Token.dedent then 1 else 0)
          = st.currentIndent + (if t = Token.indent then 1 else 0)
      ∧ (t = Token.eof → st.currentIndent = 0)
      ∧ (t ≠ Token.eof →
          (st'.input.length < st.input.length
           ∨ (st.input = [] ∧ st.startOfLine = false ∧ t = Token.newline
              ∧ st' = nextLine st)
           ∨ (st.input = [] ∧ st.startOfLine = true ∧ 0 < st.currentIndent
              ∧ t = Token.dedent
              ∧ st' = { st with currentIndent := st.currentIndent - 1 })
           ∨ (st.input ≠ [] ∧ st'.input = st.input ∧ st.startOfLine = true
              ∧ st'.startOfLine = true ∧ st'.lineIndent = st.lineIndent
              ∧ st.currentIndent ≠ st.lineIndent
              ∧ ((st.currentIndent < st.lineIndent ∧ t = Token.indent
                  ∧ st'.currentIndent = st.currentIndent + 1)
                 ∨ (st.lineIndent < st.currentIndent ∧ t = Token.dedent
                  ∧ st'.currentIndent = st.currentIndent - 1))))) := by
  intro f
  induction f with
  | zero => intro st t st' h; exact absurd h (Nat.not_lt_zero _)
  | succ f ih =>
    intro st t st' hlen h
    simp only [advanceAux] at h
    split at h
    · rename_i hin
      split_ifs at h with hsol hci
      · injection h with h'; injection h' with ht hst; subst ht; subst hst
        refine ⟨by simp [nextLine, dropLine, hin], by simp [nextLine], by simp, ?_⟩
        intro _
        exact Or.inr (Or.inl ⟨hin, hsol, rfl, rfl⟩)
      · injection h with h'; injection h' with ht hst; subst ht; subst hst
        have hsol' : st.startOfLine = true := by simpa using hsol
        refine ⟨le_rfl, by simp; omega, by simp, ?_⟩
        intro _
        exact Or.inr (Or.inr (Or.inl ⟨hin, hsol', hci, rfl, rfl⟩))
      · injection h with h'; injection h' with ht hst; subst ht; subst hst
        exact ⟨le_rfl, by simp, fun _ => by omega, fun hne => absurd rfl hne⟩
    · rename_i ch rest hin
      by_cases h1 : ch = '\n'
      · rw [if_pos h1] at h
        by_cases hs : st.startOfLine = true
        · rw [if_pos hs] at h
          have hmid : (nextLine st).input = rest := by
            simp [nextLine, dropLine, hin, h1]
          have hlt : (nextLine st).input.length < f := by
            rw [hmid]; rw [hin] at hlen; simp only [List.length_cons] at hlen; omega
          obtain ⟨ih1, ih2, ih3, ih4⟩ := ih (nextLine st) t st' hlt h
          rw [hmid] at ih1
          refine ⟨?_, ih2, ih3, ?_⟩
          · rw [hin]; simp only [List.length_cons]; omega
          · intro _
            left; rw [hin]; simp only [List.length_cons]; omega
        · rw [if_neg hs] at h
          injection h with h'; injection h' with ht hst; subst ht; subst hst
          have hdl : (nextLine st).input = rest := by
            simp [nextLine, dropLine, hin, h1]
          refine ⟨?_, by simp [nextLine], by simp, ?_⟩
          · rw [hdl, hin]; simp
          · intro _
            left; rw [hdl, hin]; simp
      · rw [if_neg h1] at h
        by_cases h2 : ch = '#'
        · rw [if_pos h2] at h
          have hdd : (dropToNewline rest).length ≤ rest.length := by
            simp only [dropToNewline]; exact length_dropWhile_le _ _
          have hlt : (dropToNewline rest).length < f := by
            rw [hin] at hlen; simp only [List.length_cons] at hlen; omega
          obtain ⟨ih1, ih2, ih3, ih4⟩ := ih _ t st' hlt h
          dsimp only at ih1
          refine ⟨?_, ih2, ih3, ?_⟩
          · rw [hin]; simp only [List.length_cons]; omega
          · intro _
            left; rw [hin]; simp only [List.length_cons]; omega
        · rw [if_neg h2] at h
          by_cases h3 : ch = ' '
          · rw [if_pos h3] at h
            have hlt : (st.input.dropWhile (fun x => x == ' ')).length < f := by
              rw [hin, List.dropWhile_cons]
              subst h3
              simp only [beq_self_eq_true, if_true]
              have hd := length_dropWhile_le (fun x => x == ' ') rest
              rw [hin] at hlen; simp only [List.length_cons] at hlen; omega
            have hledrop : (st.input.dropWhile (fun x => x == ' ')).length
                < st.input.length := by
              rw [hin, List.dropWhile_cons]
              subst h3
              simp only [beq_self_eq_true, if_true]
              have hd := length_dropWhile_le (fun x => x == ' ') rest
              simp only [List.length_cons]; omega
            by_cases hs : st.startOfLine = true
            · rw [if_pos hs] at h
              obtain ⟨ih1, ih2, ih3, ih4⟩ := ih _ t st' hlt h
              dsimp only at ih1
              exact ⟨by omega, ih2, ih3, fun _ => Or.inl (by omega)⟩
            · rw [if_neg hs] at h
              obtain ⟨ih1, ih2, ih3, ih4⟩ := ih _ t st' hlt h
              dsimp only at ih1
              exact ⟨by omega, ih2, ih3, fun _ => Or.inl (by omega)⟩
          · rw [if_neg h3] at h
            by_cases h4 : st.startOfLine = true ∧ st.currentIndent ≠ st.lineIndent
            · rw [if_pos h4] at h
              split_ifs at h with hlt'
              · injection h with h'; injection h' with ht hst; subst ht; subst hst
                refine ⟨le_rfl, by simp, by simp, ?_⟩
                intro _
                refine Or.inr (Or.inr (Or.inr ⟨by rw [hin]; simp, rfl, h4.1, h4.1,
                  rfl, h4.2, Or.inl ⟨hlt', rfl, rfl⟩⟩))
              · injection h with h'; injection h' with ht hst; subst ht; subst hst
                have hgt : st.lineIndent < st.currentIndent := by
                  rcases h4 with ⟨_, hne⟩; omega
                refine ⟨le_rfl, by simp; omega, by simp, ?_⟩
                intro _
                refine Or.inr (Or.inr (Or.inr ⟨by rw [hin]; simp, rfl, h4.1, h4.1,
                  rfl, h4.2, Or.inr ⟨hgt, rfl, rfl⟩⟩))
            · rw [if_neg h4] at h
              rcases hp : parseTokenF st with e0 | ⟨t0, st1⟩
              · rw [hp] at h; simp only [] at h; cases h
              · rw [hp] at h; simp only [] at h
                injection h with h'; injection h' with ht hst; subst ht; subst hst
                obtain ⟨⟨hne, hni, hnd⟩, hsol1, hci1, hli1, hlen1⟩ :=
                  parseTokenF_spec st t0 st1 hp
                refine ⟨le_of_lt hlen1, ?_, fun he => absurd he hne, ?_⟩
                · rw [if_neg hnd, if_neg hni, hci1]
                · intro _
                  exact Or.inl hlen1

/-- `countTok` distributes over append. -/
theorem countTok_append (t : Token) (l1 l2 : List Token) :
    countTok t (l1 ++ l2) = countTok t l1 + countTok t l2 := by
  induction l1 with
  | nil => simp [countTok]
  | cons x rest ih => simp [countTok, ih]; omega

/-- `countTok` on a replicated list. -/
theorem countTok_replicate (t x : Token) (n : Nat) :
    countTok t (List.replicate n x) = if x == t then n else 0 := by
  induction n with
  | zero => simp [countTok]
  | succ n ih =>
    simp only [List.replicate_succ, countTok, ih]
    by_cases hx : (x == t) = true
    · simp [hx]; omega
    · simp [hx]

/-- At end of input with `start_of_line` set, the stream is `current_indent`
many `Dedent`s followed by `Eof`, one token per *advance*. -/
theorem lexAllF_empty_sol :
    ∀ (n : Nat) (st : LexSt), st.input = [] → st.startOfLine = true →
      st.currentIndent = n →
      lexAllF (n + 1) st
        = Except.ok (List.replicate n Token.dedent ++ [Token.eof]) := by
  intro n
  induction n with
  | zero =>
    intro st hin hsol hci
    have hadv : advance st = Except.ok (Token.eof, st) := by
      simp [advance, advanceAux, hin, hsol, hci]
    simp [lexAllF, hadv]
  | succ n ih =>
    intro st hin hsol hci
    have hadv : advance st
        = Except.ok (Token.dedent, { st with currentIndent := st.currentIndent - 1 }) := by
      simp [advance, advanceAux, hin, hsol, hci]
    have hrec := ih { st with currentIndent := st.currentIndent - 1 }
      (by simpa using hin) (by simpa using hsol) (by simp [hci])
    have hunf : lexAllF (n + 1 + 1) st = (match advance st with
      | Except.error e => Except.error e
      | Except.ok (t, st1) =>
        if t = Token.eof then Except.ok [t]
        else match lexAllF (n + 1) st1 with
          | Except.ok ts => Except.ok (t :: ts)
          | Except.error e => Except.error e) := rfl
    rw [hunf]
    simp [hadv, hrec, List.replicate_succ]

/-- At end of input (any `start_of_line`): the stream closes with a possible
virtual `Newline`, the pending `Dedent`s, and exactly one `Eof`; the dedent
count matches `current_indent` and no `Indent` is emitted. -/
theorem lexAllF_empty :
    ∀ st : LexSt, st.input = [] →
      ∃ n toks, lexAllF n st = Except.ok toks
        ∧ (∃ pre, toks = pre ++ [Token.eof] ∧ Token.eof ∉ pre)
        ∧ countTok Token.dedent toks
            = countTok Token.indent toks + st.currentIndent := by
  intro st hin
  by_cases hsol : st.startOfLine = true
  · refine ⟨st.currentIndent + 1, _,
      lexAllF_empty_sol st.currentIndent st hin hsol rfl, ?_, ?_⟩
    · refine ⟨List.replicate st.currentIndent Token.dedent, rfl, ?_⟩
      intro hmem
      have := List.eq_of_mem_replicate hmem
      cases this
    · rw [countTok_append, countTok_append, countTok_replicate, countTok_replicate]
      simp [countTok]
  · have hsolf : st.startOfLine = false := by
      revert hsol; cases st.startOfLine <;> simp
    have hadv : advance st = Except.ok (Token.newline, nextLine st) := by
      simp [advance, advanceAux, hin, hsolf]
    have hrec := lexAllF_empty_sol st.currentIndent (nextLine st)
      (by simp [nextLine, dropLine, hin]) rfl rfl
    refine ⟨st.currentIndent + 1 + 1,
      Token.newline :: (List.replicate st.currentIndent Token.dedent ++ [Token.eof]),
      ?_, ?_, ?_⟩
    · have hunf : lexAllF (st.currentIndent + 1 + 1) st = (match advance st with
        | Except.error e => Except.error e
        | Except.ok (t, st1) =>
          if t = Token.eof then Except.ok [t]
          else match lexAllF (st.currentIndent + 1) st1 with
            | Except.ok ts => Except.ok (t :: ts)
            | Except.error e => Except.error e) := rfl
      rw [hunf]
      simp [hadv, hrec]
    · refine ⟨Token.newline :: List.replicate st.currentIndent Token.dedent, by simp, ?_⟩
      intro hmem
      rcases List.mem_cons.mp hmem with he | hm
      · cases he
      · have := List.eq_of_mem_replicate hm
        cases this
    · simp only [countTok, countTok_append, countTok_replicate]
      simp [countTok]

/-- The run theorem: from every lexer state, repeated *advance* either
reaches `Eof` — with exactly one `Eof`, at the end, and dedents balancing
indents plus the state's entry `current_indent` — or stops at a real lexical
error (never at fuel exhaustion). -/
theorem lexRun :
    ∀ (L D : Nat) (st : LexSt), st.input.length < L →
      max st.currentIndent st.lineIndent - min st.currentIndent st.lineIndent < D →
      ∃ n,
        (∃ toks, lexAllF n st = Except.ok toks
          ∧ (∃ pre, toks = pre ++ [Token.eof] ∧ Token.eof ∉ pre)
          ∧ countTok Token.dedent toks
              = countTok Token.indent toks + st.currentIndent)
        ∨ (∃ e, lexAllF n st = Except.error e ∧ e ≠ "fuel exhausted") := by
  intro L
  induction L with
  | zero => intro D st h; exact absurd h (Nat.not_lt_zero _)
  | succ L ihL =>
    intro D
    induction D with
    | zero => intro st _ h; exact absurd h (Nat.not_lt_zero _)
    | succ D ihD =>
      intro st hlen hdist
      by_cases hin : st.input = []
      · obtain ⟨n, toks, h1, h2, h3⟩ := lexAllF_empty st hin
        exact ⟨n, Or.inl ⟨toks, h1, h2, h3⟩⟩
      · rcases hadv : advance st with e | ⟨t, st'⟩
        · refine ⟨1, Or.inr ⟨e, ?_,
            advanceAux_no_fuel_err _ st (Nat.lt_succ_self _) e hadv⟩⟩
          simp [lexAllF, hadv]
        · obtain ⟨hle, hbal, heof, hstep⟩ :=
            advanceAux_step _ st t st' (Nat.lt_succ_self _) hadv
          by_cases hte : t = Token.eof
          · subst hte
            refine ⟨1, Or.inl ⟨[Token.eof], by simp [lexAllF, hadv],
              ⟨[], rfl, by simp⟩, ?_⟩⟩
            simp [countTok, heof rfl]
          · have hIH : ∃ n,
                (∃ toks, lexAllF n st' = Except.ok toks
                  ∧ (∃ pre, toks = pre ++ [Token.eof] ∧ Token.eof ∉ pre)
                  ∧ countTok Token.dedent toks
                      = countTok Token.indent toks + st'.currentIndent)
                ∨ (∃ e, lexAllF n st' = Except.error e ∧ e ≠ "fuel exhausted") := by
              rcases hstep hte with hlt | hc1 | hc2 | hc3
              · exact ihL (max st'.currentIndent st'.lineIndent
                  - min st'.currentIndent st'.lineIndent + 1) st' (by omega)
                  (by omega)
              · exact absurd hc1.1 hin
              · exact absurd hc2.1 hin
              · obtain ⟨hne0, hinp, hsol, hsol', hli, hcine, hcase⟩ := hc3
                refine ihD st' (by rw [hinp]; exact hlen) ?_
                rcases hcase with ⟨hlt2, _, hci'⟩ | ⟨hgt2, _, hci'⟩ <;>
                  (rw [hci', hli]; omega)
            obtain ⟨n, hres⟩ := hIH
            rcases hres with ⟨toks, h1, ⟨pre, hpre, hmem⟩, h3⟩ | ⟨e, h1, h2⟩
            · refine ⟨n + 1, Or.inl ⟨t :: toks,
                by simp [lexAllF, hadv, hte, h1],
                ⟨t :: pre, by rw [hpre]; rfl, ?_⟩, ?_⟩⟩
              · intro hmem2
                rcases List.mem_cons.mp hmem2 with he | hm
                · exact hte he.symm
                · exact hmem hm
              · simp only [countTok, beq_iff_eq]
                by_cases ht1 : t = Token.dedent <;> by_cases ht2 : t = Token.indent <;>
                  simp only [ht1, ht2, if_pos, if_neg, reduceIte] at hbal ⊢ <;>
                  omega
            · exact ⟨n + 1, Or.inr ⟨e, by simp [lexAllF, hadv, hte, h1], h2⟩⟩

/-- **C5** counterexample — the claim quantifies over *every* finite input,
but on the unterminated string literal `"abc` the very first *advance*
raises a lex error, so the token stream is empty and never ends in `Eof`. -/
theorem C5_counterexample :
    advance (initLex "\"abc") = Except.error "Failed to parse string : abc"
    ∧ lexAllF 5 (initLex "\"abc") = Except.error "Failed to parse string : abc" := by
  constructor <;> rfl

/-- **C5** (amended) — for every input on which no lex error occurs, the
token stream ends with exactly one `Eof` and the `Indent` and `Dedent`
counts before it are equal; and at end of input the behavior is exactly:
mid-line end emits a virtual `Newline` first, then one `Dedent` per
*advance* while `current_indent` is positive, and only then `Eof`. -/
theorem C5_amended :
    (∀ s : String, ∃ n,
      (∃ toks pre, lexAllF n (initLex s) = Except.ok toks
        ∧ toks = pre ++ [Token.eof] ∧ Token.eof ∉ pre
        ∧ countTok Token.dedent toks = countTok Token.indent toks)
      ∨ (∃ e, lexAllF n (initLex s) = Except.error e ∧ e ≠ "fuel exhausted"))
    ∧ (∀ st : LexSt, st.input = [] →
      (st.startOfLine = false →
        advance st = Except.ok (Token.newline, nextLine st))
      ∧ (st.startOfLine = true → 0 < st.currentIndent →
        advance st = Except.ok (Token.dedent,
          { st with currentIndent := st.currentIndent - 1 }))
      ∧ (st.startOfLine = true → st.currentIndent = 0 →
        advance st = Except.ok (Token.eof, st))) := by
  constructor
  · intro s
    obtain ⟨n, hres⟩ := lexRun (s.data.length + 1) 1 (initLex s)
      (by simp [initLex]) (by simp [initLex])
    rcases hres with ⟨toks, h1, ⟨pre, hpre, hmem⟩, h3⟩ | ⟨e, h1, h2⟩
    · exact ⟨n, Or.inl ⟨toks, pre, h1, hpre, hmem, by simpa [initLex] using h3⟩⟩
    · exact ⟨n, Or.inr ⟨e, h1, h2⟩⟩
  · intro st hin
    refine ⟨?_, ?_, ?_⟩
    · intro hsol
      simp [advance, advanceAux, hin, hsol]
    · intro hsol hci
      simp [advance, advanceAux, hin, hsol, hci]
    · intro hsol hci
      simp [advance, advanceAux, hin, hsol, hci]

/-- **C5** witness: a mid-dedent end-of-input state takes one `Dedent` per
*advance*. -/
theorem C5_witness :
    advance { input := [], startOfLine := true, currentIndent := 2, lineIndent := 0 }
      = Except.ok (Token.dedent,
        { input := [], startOfLine := true, currentIndent := 1, lineIndent := 0 }) := by
  have h := ((C5_amended.2
    { input := [], startOfLine := true, currentIndent := 2, lineIndent := 0 } rfl).2.1)
    rfl (by decide)
  simpa using h

/-- **C8** counterexample — the claim says a digit run that fits in 64 bits
is tokenized without error to its exact value, but `ReadNumber` parses with
`std::stoi` into a C++ `int`: on `2147483648` (which fits in 64 bits but not
in 32) it raises `std::out_of_range` instead of producing a token. -/
theorem C8_counterexample :
    readNumber ("2147483648".data) = Except.error "stoi: out of range"
    ∧ advance (initLex "2147483648") = Except.error "stoi: out of range" := by
  constructor <;> rfl

/-- **C8** (amended) — for every maximal digit run: if its value fits a
signed 32-bit `int` (`≤ 2147483647`), `ReadNumber` consumes exactly the run
and yields its exact value, and the lexer emits the corresponding `Number`
token; if the value exceeds `INT_MAX`, the lexer raises the out-of-range
error instead. -/
theorem C8_amended :
    (∀ l : List Char, (l.takeWhile isNumC).isEmpty = false →
      (digitsToNat (l.takeWhile isNumC) ≤ 2147483647 →
        readNumber l
          = Except.ok ((digitsToNat (l.takeWhile isNumC) : Int), l.dropWhile isNumC))
      ∧ (2147483647 < digitsToNat (l.takeWhile isNumC) →
        readNumber l = Except.error "stoi: out of range"))
    ∧ (∀ (st : LexSt) (ch : Char) (rest : List Char),
      st.input = ch :: rest → isNumC ch = true → st.startOfLine = false →
      digitsToNat (st.input.takeWhile isNumC) ≤ 2147483647 →
      advance st = Except.ok
        (Token.number ((digitsToNat (st.input.takeWhile isNumC) : Int)),
         { st with input := st.input.dropWhile isNumC, startOfLine := false })) := by
  constructor
  · intro l hne
    constructor
    · intro hle
      simp only [readNumber, hne, Bool.false_eq_true, if_false, if_pos hle]
    · intro hgt
      simp only [readNumber, hne, Bool.false_eq_true, if_false,
        if_neg (by omega : ¬digitsToNat (l.takeWhile isNumC) ≤ 2147483647)]
  · intro st ch rest hin hnum hsolf hle
    obtain ⟨inp, sol, ci, li⟩ := st
    simp only at hin hsolf hle ⊢
    subst hin; subst hsolf
    have hch1 : ¬(ch = '\n') := by
      intro hh; subst hh; exact absurd hnum (by decide)
    have hch2 : ¬(ch = '#') := by
      intro hh; subst hh; exact absurd hnum (by decide)
    have hch3 : ¬(ch = ' ') := by
      intro hh; subst hh; exact absurd hnum (by decide)
    have hne : ((ch :: rest).takeWhile isNumC).isEmpty = false := by
      rw [List.takeWhile_cons, if_pos hnum]; simp
    have hrn : readNumber (ch :: rest)
        = Except.ok ((digitsToNat ((ch :: rest).takeWhile isNumC) : Int),
          (ch :: rest).dropWhile isNumC) := by
      simp only [readNumber, hne, Bool.false_eq_true, if_false, if_pos hle]
    simp only [advance, advanceAux, if_neg hch1, if_neg hch2, if_neg hch3]
    rw [if_neg (by simp)]
    simp only [parseTokenF, if_pos hnum, hrn]

/-- **C8** witness: the two-digit run `42` tokenizes to `Number 42`. -/
theorem C8_witness :
    advance (LexSt.mk ['4', '2'] false 0 0)
      = Except.ok (Token.number 42, LexSt.mk [] false 0 0) :=
  C8_amended.2 (LexSt.mk ['4', '2'] false 0 0) '4' ['2'] rfl (by decide) rfl (by decide)

end Mython
